import Mathlib

/-!
# Verification of the junting-orbit job-history core

A shallow embedding, in Lean 4, of the history store, validators and
injection logic of the junting-orbit browser extension:

* `src/lib/jobHistory.ts` — history entries, validation, dedup/capacity
  (`addToHistory`), filters, stable score sort, `markJobAsApplied`,
  `isJobApplied`;
* `src/lib/storage.ts` — `sanitizeString`, `sanitizeUrl`,
  `validateStoredData`, `getStoredData`;
* `src/content/applicationTracker.ts` — the applied-state computation of
  `injectButton`.

Modelling conventions:

* JavaScript numbers are modelled as rationals (`ℚ`).  `NaN` and infinities
  are not modelled; no verified property depends on them.
* JavaScript strings are Lean `String`s; `String.length` counts characters
  where JavaScript counts UTF-16 code units — they agree on all inputs used
  here.
* The platform's WHATWG `URL` constructor and the SHA-256 digest of
  `crypto.subtle` are browser built-ins, not code of this repository.  They
  are treated as abstract models (`UrlModel`, `HashModel`) carrying the
  platform facts the code relies on; witnesses instantiate them with small
  concrete executable models.
* Dynamically-typed runtime values (`unknown` in the source) are embedded as
  the inductive `JSValue`; property access on `null`/`undefined` raises a
  `TypeError`, which the `Except`-valued variants of the operations surface
  explicitly.
-/

/-! ## JavaScript runtime values -/

/-- A dynamically-typed JavaScript value, as far as the code under
verification can observe it.  `NaN` is not modelled (numbers are `ℚ`). -/
inductive JSValue where
  | null : JSValue
  | undefined : JSValue
  | bool : Bool → JSValue
  | num : ℚ → JSValue
  | str : String → JSValue
  | arr : List JSValue → JSValue
  | obj : List (String × JSValue) → JSValue

namespace JSValue

/-- JavaScript `typeof` (note `typeof null = "object"`). -/
def typeofJS : JSValue → String
  | null => "object"
  | undefined => "undefined"
  | bool _ => "boolean"
  | num _ => "number"
  | str _ => "string"
  | arr _ => "object"
  | obj _ => "object"

/-- JavaScript falsiness: `null`, `undefined`, `false`, `0` and `""` are
falsy, everything else observable here is truthy. -/
def falsy : JSValue → Bool
  | null => true
  | undefined => true
  | bool b => !b
  | num q => q == 0
  | str s => s == ""
  | arr _ => false
  | obj _ => false

/-- `Array.isArray`. -/
def isArray : JSValue → Bool
  | arr _ => true
  | _ => false

/-- Property read `v[k]` on a value that is known not to throw: a missing
key, or a primitive receiver, yields `undefined`. -/
def get : JSValue → String → JSValue
  | obj fields, k =>
    match fields.find? (fun p => p.1 == k) with
    | some p => p.2
    | _ => undefined
  | _, _ => undefined

/-- The `in` operator: key membership on an object. -/
def hasKey : JSValue → String → Bool
  | obj fields, k => (fields.find? (fun p => p.1 == k)).isSome
  | _, _ => false

/-- Property read `v[k]` with JavaScript exception semantics: reading a
property of `null` or `undefined` throws a `TypeError`; primitives other
than these yield `undefined` for unknown keys. -/
def getEx : JSValue → String → Except String JSValue
  | null, _ => .error "TypeError"
  | undefined, _ => .error "TypeError"
  | v, k => .ok (v.get k)

end JSValue

/-! ## Platform models: WHATWG URL and SHA-256

`new URL(s)` and `crypto.subtle.digest("SHA-256", ·)` are browser
built-ins.  The code relies only on the facts recorded as fields of the
structures below: parsing yields a protocol and a normalized `href`;
re-parsing an `href` is stable; an `href` is never the empty string; the
hex digest truncated by `generateJobId` has exactly 16 characters. -/

/-- The observable result of `new URL(s)`: the `protocol` (with trailing
colon, e.g. `"https:"`) and the normalized `href`. -/
structure UrlParts where
  protocol : String
  href : String
deriving DecidableEq

/-- Abstract model of the platform URL parser.  `parse s = none` models
`new URL(s)` throwing. -/
structure UrlModel where
  parse : String → Option UrlParts
  /-- Re-parsing a normalized `href` succeeds and is stable. -/
  parse_href : ∀ s p, parse s = some p → parse p.href = some p
  /-- A normalized `href` is never the empty string (it contains at least
  the scheme). -/
  href_ne_empty : ∀ s p, parse s = some p → p.href ≠ ""

/-- Abstract model of `generateJobId` (`src/lib/jobHistory.ts`): the hex
SHA-256 digest of the URL, truncated to its first 16 characters.  The code
relies on determinism (a plain function) and on the result length. -/
structure HashModel where
  hash : String → String
  hash_len : ∀ s, (hash s).length = 16

/-! ## `src/lib/storage.ts` — sanitizers -/

/-- JavaScript `String.prototype.trim` on a character list: strip leading
and trailing whitespace (the four ASCII whitespace characters; the exotic
Unicode space classes JavaScript also trims are not modelled, and no
verified claim uses them). -/
def trimChars (l : List Char) : List Char :=
  ((l.dropWhile Char.isWhitespace).reverse.dropWhile Char.isWhitespace).reverse

/-- JavaScript `s.slice(0, n)`: the first `n` characters. -/
def jsSliceTo (s : String) (n : Nat) : String :=
  (s.toList.take n).asString

/-- `sanitizeString` (`src/lib/storage.ts`): remove `<` and `>`, trim
surrounding whitespace, truncate to 10000 characters. -/
def sanitizeString (input : String) : String :=
  jsSliceTo (trimChars (input.toList.filter (fun c => c ≠ '<' ∧ c ≠ '>'))).asString 10000

/-- `sanitizeUrl` (`src/lib/storage.ts`): parse with the platform URL
parser, reject non-`http(s)` schemes, return the normalized `href`. -/
def sanitizeUrl (M : UrlModel) (url : String) : Option String :=
  match M.parse url with
  | none => none
  | some parsed =>
    if parsed.protocol = "http:" ∨ parsed.protocol = "https:" then
      some parsed.href
    else
      none

/-! ## `src/lib/jobHistory.ts` — data model and constants -/

/-- `MAX_HISTORY_ITEMS` (`src/lib/jobHistory.ts`). -/
def MAX_HISTORY_ITEMS : Nat := 20

def MAX_TITLE_LENGTH : Nat := 200
def MAX_COMPANY_LENGTH : Nat := 100
def MAX_FLAG_LENGTH : Nat := 150
def MAX_FLAGS_PER_ENTRY : Nat := 3

/-- A well-typed `JobHistoryEntry` (`src/lib/jobHistory.ts`).  `label` and
`decisionHelper` are strings constrained by the validator, as in the
source's union types; timestamps and scores are JavaScript numbers
(modelled as `ℚ`); `appliedAt` is optional. -/
structure JobHistoryEntry where
  id : String
  url : String
  title : String
  company : String
  matchScore : ℚ
  label : String
  decisionHelper : String
  topGreenFlags : List String
  topRedFlags : List String
  analyzedAt : ℚ
  appliedAt : Option ℚ := none
deriving DecidableEq

/-- `validateHistoryEntry` (`src/lib/jobHistory.ts`) on a dynamically-typed
value, exactly as the source checks its `unknown` argument field by
field. -/
def validateHistoryEntry (M : UrlModel) (entry : JSValue) : Bool :=
  -- `if (!entry || typeof entry !== "object") return false;`
  if entry.falsy ∨ entry.typeofJS ≠ "object" then false
  else
    let id := entry.get "id"
    let title := entry.get "title"
    let company := entry.get "company"
    let url := entry.get "url"
    let matchScore := entry.get "matchScore"
    let analyzedAt := entry.get "analyzedAt"
    let label := entry.get "label"
    let decisionHelper := entry.get "decisionHelper"
    let topGreenFlags := entry.get "topGreenFlags"
    let topRedFlags := entry.get "topRedFlags"
    -- required string fields
    match id, title, company, url with
    | .str idS, .str titleS, .str companyS, .str urlS =>
      if idS.length ≠ 16 then false
      else if titleS.length > MAX_TITLE_LENGTH then false
      else if companyS.length > MAX_COMPANY_LENGTH then false
      else
        -- URL must parse with an allowed protocol
        match M.parse urlS with
        | none => false
        | some parsed =>
          if parsed.protocol ≠ "http:" ∧ parsed.protocol ≠ "https:" then false
          else
            -- numbers
            match matchScore, analyzedAt with
            | .num score, .num at_ =>
              if score < 0 ∨ score > 100 then false
              else if at_ < 0 then false
              else
                -- enums
                match label, decisionHelper with
                | .str labelS, .str dhS =>
                  if labelS ∉ ["Strong Fit", "Medium Fit", "Weak Fit"] then false
                  else if dhS ∉ ["Apply Immediately", "Tailor & Apply", "Skip for Now"] then false
                  else
                    -- arrays
                    match topGreenFlags, topRedFlags with
                    | .arr greens, .arr reds =>
                      if greens.length > MAX_FLAGS_PER_ENTRY then false
                      else if reds.length > MAX_FLAGS_PER_ENTRY then false
                      else
                        -- array contents
                        (greens ++ reds).all fun flag =>
                          match flag with
                          | .str f => f.length ≤ MAX_FLAG_LENGTH
                          | _ => false
                    | _, _ => false
                | _, _ => false
            | _, _ => false
    | _, _, _, _ => false

/-- Encode a well-typed entry as the runtime object the store persists. -/
def JobHistoryEntry.toJS (e : JobHistoryEntry) : JSValue :=
  .obj ([("id", .str e.id), ("url", .str e.url), ("title", .str e.title),
    ("company", .str e.company), ("matchScore", .num e.matchScore),
    ("label", .str e.label), ("decisionHelper", .str e.decisionHelper),
    ("topGreenFlags", .arr (e.topGreenFlags.map .str)),
    ("topRedFlags", .arr (e.topRedFlags.map .str)),
    ("analyzedAt", .num e.analyzedAt)] ++
    (match e.appliedAt with
     | some t => [("appliedAt", .num t)]
     | none => []))

/-- `validateHistoryEntry` specialized to a well-typed entry (what the
check computes on `e.toJS`). -/
def validEntry (M : UrlModel) (e : JobHistoryEntry) : Bool :=
  validateHistoryEntry M e.toJS

/-! ## `src/lib/jobHistory.ts` — operations on well-typed collections -/

/-- `sanitizeFlag` (`src/lib/jobHistory.ts`): sanitize then truncate to
`MAX_FLAG_LENGTH`. -/
def sanitizeFlag (flag : String) : String :=
  jsSliceTo (sanitizeString flag) MAX_FLAG_LENGTH

/-- The draft argument of `createHistoryEntry` (`src/lib/jobHistory.ts`).
`title` and `company` are optional in the source; `none` models absence. -/
structure EntryDraft where
  url : String
  title : Option String := none
  company : Option String := none
  matchScore : ℚ
  label : String
  decisionHelper : String
  greenFlags : List String
  redFlags : List String

/-- JavaScript `x || d` for an optional string field: `undefined` and the
empty string are falsy, so both fall back to the default. -/
def jsOrDefault (x : Option String) (d : String) : String :=
  match x with
  | none => d
  | some s => if s = "" then d else s

/-- `createHistoryEntry` (`src/lib/jobHistory.ts`).  Throws (`.error`)
exactly where the source throws `new Error("Invalid URL")`: when the
sanitized URL is falsy (`null` or the empty string).  `now` models
`Date.now()`. -/
def createHistoryEntry (M : UrlModel) (H : HashModel) (now : ℚ)
    (data : EntryDraft) : Except String JobHistoryEntry :=
  match sanitizeUrl M data.url with
  | none => .error "Invalid URL"
  | some u =>
    if u = "" then .error "Invalid URL"
    else
      .ok
        { id := H.hash u
          url := u
          title := jsSliceTo (sanitizeString (jsOrDefault data.title "Untitled Job")) MAX_TITLE_LENGTH
          company := jsSliceTo (sanitizeString (jsOrDefault data.company "Unknown Company")) MAX_COMPANY_LENGTH
          matchScore := max 0 (min 100 data.matchScore)
          label := data.label
          decisionHelper := data.decisionHelper
          topGreenFlags := ((data.greenFlags.take MAX_FLAGS_PER_ENTRY).map sanitizeFlag).filter
            (fun f => f.length > 0)
          topRedFlags := ((data.redFlags.take MAX_FLAGS_PER_ENTRY).map sanitizeFlag).filter
            (fun f => f.length > 0)
          analyzedAt := now
          appliedAt := none }

/-- `addToHistory` (`src/lib/jobHistory.ts`): drop invalid entries and any
entry sharing the new entry's `id`, prepend the new entry, truncate to
`MAX_HISTORY_ITEMS`. -/
def addToHistory (M : UrlModel) (currentHistory : List JobHistoryEntry)
    (newEntry : JobHistoryEntry) : List JobHistoryEntry :=
  let validHistory := currentHistory.filter
    (fun entry => validEntry M entry ∧ entry.id ≠ newEntry.id)
  (newEntry :: validHistory).take MAX_HISTORY_ITEMS

/-- `filterByLabel` (`src/lib/jobHistory.ts`). -/
def filterByLabel (history : List JobHistoryEntry) (labels : List String) :
    List JobHistoryEntry :=
  history.filter (fun entry => entry.label ∈ labels)

/-- `filterByTimeRange` (`src/lib/jobHistory.ts`): keep entries with
`analyzedAt ≥ now − days·86400000`. -/
def filterByTimeRange (now : ℚ) (history : List JobHistoryEntry) (days : ℚ) :
    List JobHistoryEntry :=
  let cutoff := now - days * 24 * 60 * 60 * 1000
  history.filter (fun entry => entry.analyzedAt ≥ cutoff)

/-- Stable insertion of an entry below every earlier entry of greater or
equal score: the position `[...h].sort((a, b) => b.matchScore - a.matchScore)`
gives it, since the ECMAScript sort is required to be stable. -/
def insertByScore (e : JobHistoryEntry) : List JobHistoryEntry → List JobHistoryEntry
  | [] => [e]
  | x :: xs =>
    if x.matchScore ≥ e.matchScore then x :: insertByScore e xs
    else e :: x :: xs

/-- `sortByScore` (`src/lib/jobHistory.ts`):
`[...history].sort((a, b) => b.matchScore - a.matchScore)`.  The ECMAScript
sort with a consistent comparator is exactly the stable descending sort,
which the left fold of stable insertions computes. -/
def sortByScore (history : List JobHistoryEntry) : List JobHistoryEntry :=
  history.foldl (fun acc e => insertByScore e acc) []

/-- `getHistoryStats` (`src/lib/jobHistory.ts`), without the final
`Math.round` (the average is returned exact; rounding is presentational and
no verified claim depends on it). -/
def getHistoryStats (history : List JobHistoryEntry) :
    Nat × Nat × Nat × Nat × ℚ :=
  let total := history.length
  let strongFit := (history.filter (fun e => e.label = "Strong Fit")).length
  let mediumFit := (history.filter (fun e => e.label = "Medium Fit")).length
  let weakFit := (history.filter (fun e => e.label = "Weak Fit")).length
  let averageScore :=
    if total > 0 then (history.map (·.matchScore)).sum / total else 0
  (total, strongFit, mediumFit, weakFit, averageScore)

/-- `markJobAsApplied` (`src/lib/jobHistory.ts`): map over the collection,
replacing `appliedAt` with `Date.now()` on every entry whose `id` equals
the hash of the URL. -/
def markJobAsApplied (H : HashModel) (now : ℚ)
    (history : List JobHistoryEntry) (url : String) : List JobHistoryEntry :=
  history.map (fun entry =>
    if entry.id = H.hash url then { entry with appliedAt := some now } else entry)

/-- `isJobApplied` (`src/lib/jobHistory.ts`): find the entry by URL hash
and return the truthiness of its `appliedAt` (`!!entry?.appliedAt`: absent
entry, absent field and timestamp `0` are all falsy). -/
def isJobApplied (H : HashModel) (history : List JobHistoryEntry)
    (url : String) : Bool :=
  match history.find? (fun e => e.id = H.hash url) with
  | none => false
  | some e =>
    match e.appliedAt with
    | none => false
    | some t => t ≠ 0

/-- `getJobByUrl` (`src/lib/jobHistory.ts`). -/
def getJobByUrl (H : HashModel) (history : List JobHistoryEntry)
    (url : String) : Option JobHistoryEntry :=
  history.find? (fun e => e.id = H.hash url)

/-! ## `src/lib/storage.ts` — persisted-blob validation and load

The embedded version is the full storage module (the one `jobHistory.ts`
imports `sanitizeString`/`sanitizeUrl` from), whose `StoredData` carries
the `jobHistory` field. -/

/-- `d.x !== null && d.x !== undefined`. -/
def JSValue.isNullish : JSValue → Bool
  | .null => true
  | .undefined => true
  | _ => false

/-- Membership of a dynamic value in a closed string list, as
`["..."].includes(v)` computes it with strict equality. -/
def jsIncludesStr (labels : List String) : JSValue → Bool
  | .str s => labels.contains s
  | _ => false

/-- `validateStoredData` (`src/lib/storage.ts`), field by field.  The
`jobHistory` field is — deliberately or not — never inspected.
`Number.isNaN` is constantly false on the `ℚ` number model. -/
def validateStoredData (M : UrlModel) (data : JSValue) : Bool :=
  -- `if (!data || typeof data !== "object") return false;`
  if data.falsy ∨ data.typeofJS ≠ "object" then false
  else
    let assessment := data.get "assessment"
    -- assessment branch
    let assessmentOk :=
      if assessment.isNullish then true
      else if assessment.typeofJS ≠ "object" then false
      else if !(jsIncludesStr ["Strong Fit", "Medium Fit", "Weak Fit"]
          (assessment.get "label")) then false
      else
        (match assessment.get "matchScore" with
         | .num q => if q < 0 ∨ q > 100 then false else true
         | _ => false) &&
        (assessment.get "greenFlags").isArray &&
        (assessment.get "redFlags").isArray &&
        jsIncludesStr ["Apply Immediately", "Tailor & Apply", "Skip for Now"]
          (assessment.get "decisionHelper") &&
        -- the `hasCompletedOnboarding` type check sits inside this branch
        !(data.hasKey "hasCompletedOnboarding" ∧
          (data.get "hasCompletedOnboarding").typeofJS ≠ "boolean")
    if !assessmentOk then false
    else
      let coverLetter := data.get "coverLetter"
      let coverOk :=
        if coverLetter.isNullish then true
        else match coverLetter with
          | .str s => s.length ≤ 10000
          | _ => false
      if !coverOk then false
      else
        let analyzedUrl := data.get "analyzedUrl"
        let urlOk :=
          if analyzedUrl.isNullish then true
          else match analyzedUrl with
            | .str s => (M.parse s).isSome
            | _ => false
        if !urlOk then false
        else
          let analyzedAt := data.get "analyzedAt"
          let atOk :=
            if analyzedAt.isNullish then true
            else match analyzedAt with
              | .num q => 0 ≤ q
              | _ => false
          if !atOk then false
          else
            let titleOk :=
              if (data.get "analyzedTitle").isNullish then true
              else match data.get "analyzedTitle" with
                | .str s => s.length ≤ 500
                | _ => false
            if !titleOk then false
            else
              let companyOk :=
                if (data.get "analyzedCompany").isNullish then true
                else match data.get "analyzedCompany" with
                  | .str s => s.length ≤ 500
                  | _ => false
              if !companyOk then false
              else
                let planOk :=
                  if data.hasKey "usagePlan" ∧ !(data.get "usagePlan").isNullish then
                    (data.get "usagePlan").typeofJS = "string"
                  else true
                if !planOk then false
                else
                  let limitOk :=
                    if data.hasKey "usageLimit" ∧ !(data.get "usageLimit").isNullish then
                      (data.get "usageLimit").typeofJS = "number"
                    else true
                  if !limitOk then false
                  else
                    let remainingOk :=
                      if data.hasKey "usageRemaining" ∧
                          !(data.get "usageRemaining").isNullish then
                        (data.get "usageRemaining").typeofJS = "number"
                      else true
                    if !remainingOk then false
                    else
                      let updatedOk :=
                        if data.hasKey "usageUpdatedAt" ∧
                            !(data.get "usageUpdatedAt").isNullish then
                          match data.get "usageUpdatedAt" with
                          | .num q => 0 ≤ q
                          | _ => false
                        else true
                      updatedOk

/-- The fail-safe default blob `getStoredData` resolves with when storage
is empty or the stored blob fails validation (`src/lib/storage.ts`). -/
def defaultStoredData : JSValue :=
  .obj [("assessment", .null), ("coverLetter", .null), ("analyzedUrl", .null),
    ("analyzedAt", .null), ("analyzedTitle", .null), ("analyzedCompany", .null),
    ("hasCompletedOnboarding", .bool false), ("usagePlan", .null),
    ("usageLimit", .null), ("usageRemaining", .null), ("usageUpdatedAt", .null)]

/-- The resolution logic of `getStoredData` (`src/lib/storage.ts`) on the
blob read from `chrome.storage.local` (`undefined` models an absent key):
a falsy read or a blob rejected by `validateStoredData` resolves to the
fail-safe default; an accepted blob is returned unrepaired. -/
def getStoredData (M : UrlModel) (data : JSValue) : JSValue :=
  if data.falsy then defaultStoredData
  else if validateStoredData M data then data
  else defaultStoredData

/-! ## `src/content/applicationTracker.ts` — injected control state -/

/-- The applied-state computation of `injectButton`
(`src/content/applicationTracker.ts`):
`history.some((job) => job.url === url)` — mere membership of the page URL
in the stored history, with no look at `appliedAt` and no hash lookup. -/
def injectButtonIsApplied (history : List JobHistoryEntry) (url : String) : Bool :=
  history.any (fun job => job.url = url)

/-- The observable state of the injected control: its text label and
whether the click activation handler is attached. -/
structure InjectedControl where
  label : String
  hasClickHandler : Bool
deriving DecidableEq

/-- The control `injectButton` builds
(`src/content/applicationTracker.ts`): `createAppliedButton(isApplied)`
writes `"Applied"` or `"Mark as Applied"`, and
`if (!isApplied) button.onclick = handleMarkAsApplied` attaches the
handler only in the not-applied case. -/
def injectButtonControl (history : List JobHistoryEntry) (url : String) :
    InjectedControl :=
  let isApplied := injectButtonIsApplied history url
  { label := if isApplied then "Applied" else "Mark as Applied"
    hasClickHandler := !isApplied }

/-! ## `src/lib/jobHistory.ts` — the same operations on raw stored values

The UI loads `stored.jobHistory` and passes it to the query operations
directly (`HistoryTab` in `FloatingButton.tsx` only checks
`Array.isArray`), so at runtime the operations can receive arbitrary
values.  These `Except`-valued variants make the JavaScript `TypeError` on
property access of `null`/`undefined` explicit.  Relational and arithmetic
operators applied to non-numbers are modelled as their NaN outcome
(comparisons false, comparator results treated as equal, a poisoned sum
as `none`); the string-to-number coercion of numeric strings is not
modelled, and no verified claim depends on it. -/

/-- `filterByLabel` with exception semantics: `entry.label` throws on a
`null`/`undefined` element. -/
def filterByLabelJS (history : List JSValue) (labels : List String) :
    Except String (List JSValue) :=
  match history with
  | [] => .ok []
  | e :: rest =>
    match e.getEx "label" with
    | .error err => .error err
    | .ok l =>
      match filterByLabelJS rest labels with
      | .error err => .error err
      | .ok tail => .ok (if jsIncludesStr labels l then e :: tail else tail)

/-- `filterByTimeRange` with exception semantics. -/
def filterByTimeRangeJS (now : ℚ) (history : List JSValue) (days : ℚ) :
    Except String (List JSValue) :=
  match history with
  | [] => .ok []
  | e :: rest =>
    match e.getEx "analyzedAt" with
    | .error err => .error err
    | .ok at_ =>
      match filterByTimeRangeJS now rest days with
      | .error err => .error err
      | .ok tail =>
        .ok (if (match at_ with
                 | .num q => decide (now - days * 24 * 60 * 60 * 1000 ≤ q)
                 | _ => false) then e :: tail else tail)

/-- The comparator `(a, b) => b.matchScore - a.matchScore`, evaluating its
left operand first; a NaN result (a non-number operand) acts as 0 on the
sort. -/
def scoreComparator (a b : JSValue) : Except String ℚ :=
  match b.getEx "matchScore" with
  | .error err => .error err
  | .ok bv =>
    match a.getEx "matchScore" with
    | .error err => .error err
    | .ok av =>
      .ok (match bv, av with
           | .num qb, .num qa => qb - qa
           | _, _ => 0)

/-- Stable insertion under the comparator: the new element goes after
every existing element `x` with `comparator(x, e) ≤ 0`. -/
def insertByScoreJS (e : JSValue) : List JSValue → Except String (List JSValue)
  | [] => .ok [e]
  | x :: xs =>
    match scoreComparator x e with
    | .error err => .error err
    | .ok c =>
      if c ≤ 0 then
        match insertByScoreJS e xs with
        | .error err => .error err
        | .ok rest => .ok (x :: rest)
      else
        .ok (e :: x :: xs)

def sortInsertAllJS (acc : List JSValue) : List JSValue → Except String (List JSValue)
  | [] => .ok acc
  | e :: rest =>
    match insertByScoreJS e acc with
    | .error err => .error err
    | .ok acc2 => sortInsertAllJS acc2 rest

/-- `sortByScore` with exception semantics.  Per the ECMAScript sort:
`undefined` elements move to the end without the comparator seeing them;
the remaining elements are stably sorted by the comparator, which throws
on a `null` element it touches (a singleton list is never compared). -/
def sortByScoreJS (history : List JSValue) : Except String (List JSValue) :=
  match sortInsertAllJS []
      (history.filter (fun v => match v with | .undefined => false | _ => true)) with
  | .error err => .error err
  | .ok sorted =>
    .ok (sorted ++ history.filter (fun v => match v with | .undefined => true | _ => false))

/-- The `reduce` of `getHistoryStats`: sum of the `matchScore`s, `none`
standing for the NaN a malformed score produces. -/
def scoresSum : List JSValue → Except String (Option ℚ)
  | [] => .ok (some 0)
  | e :: rest =>
    match e.getEx "matchScore" with
    | .error err => .error err
    | .ok v =>
      match scoresSum rest with
      | .error err => .error err
      | .ok acc =>
        .ok (match acc, v with
             | some s, .num q => some (s + q)
             | _, _ => none)

/-- `getHistoryStats` with exception semantics: three label filters and
the score sum, the average exact rather than rounded. -/
def getHistoryStatsJS (history : List JSValue) :
    Except String (Nat × Nat × Nat × Nat × Option ℚ) :=
  match filterByLabelJS history ["Strong Fit"], filterByLabelJS history ["Medium Fit"],
      filterByLabelJS history ["Weak Fit"], scoresSum history with
  | .ok strong, .ok medium, .ok weak, .ok sum =>
    .ok (history.length, strong.length, medium.length, weak.length,
      if history.length > 0 then (fun s => s / history.length) <$> sum else some 0)
  | .error err, _, _, _ => .error err
  | _, .error err, _, _ => .error err
  | _, _, .error err, _ => .error err
  | _, _, _, .error err => .error err

/-- `{...entry, appliedAt: now}`: on an object, replace (in place) or
append the `appliedAt` binding.  A non-object receiver cannot reach this
point, since its `id` read yields `undefined`, never a 16-character
hash. -/
def jsSetAppliedAt (now : ℚ) : JSValue → JSValue
  | .obj fields =>
    if (fields.find? (fun p => p.1 == "appliedAt")).isSome then
      .obj (fields.map (fun p =>
        if p.1 == "appliedAt" then (p.1, .num now) else p))
    else
      .obj (fields ++ [("appliedAt", .num now)])
  | _ => .obj [("appliedAt", .num now)]

/-- `markJobAsApplied` with exception semantics: the map body reads
`entry.id`, which throws on a `null`/`undefined` element. -/
def markJobAsAppliedJS (H : HashModel) (now : ℚ) (url : String) :
    List JSValue → Except String (List JSValue)
  | [] => .ok []
  | entry :: rest =>
    match entry.getEx "id" with
    | .error err => .error err
    | .ok id =>
      match markJobAsAppliedJS H now url rest with
      | .error err => .error err
      | .ok tail =>
        .ok ((match id with
              | .str s => if s = H.hash url then jsSetAppliedAt now entry else entry
              | _ => entry) :: tail)


/-! ## Concrete platform-model instances for witnesses

Small executable instances of `UrlModel` and `HashModel`, used only to
evaluate the verified statements on concrete inputs.  `simpleParse`
recognizes the two allowed schemes by prefix and returns the input
unchanged as its normalized `href`; `testHash` is a degenerate but
admissible digest (deterministic, 16 characters). -/

def simpleParse (s : String) : Option UrlParts :=
  if "http://".toList.isPrefixOf s.toList then some ⟨"http:", s⟩
  else if "https://".toList.isPrefixOf s.toList then some ⟨"https:", s⟩
  else none

theorem simpleParse_href (s : String) (p : UrlParts)
    (h : simpleParse s = some p) : simpleParse p.href = some p := by
  unfold simpleParse at h ⊢
  split at h
  case isTrue hc =>
    cases h
    rw [if_pos hc]
  case isFalse hc0 =>
    split at h
    case isTrue hc =>
      cases h
      rw [if_neg hc0, if_pos hc]
    case isFalse =>
      cases h

theorem simpleParse_href_ne (s : String) (p : UrlParts)
    (h : simpleParse s = some p) : p.href ≠ "" := by
  unfold simpleParse at h
  split at h
  case isTrue hc =>
    cases h
    intro he
    simp only [] at he
    subst he
    exact absurd hc (by decide)
  case isFalse =>
    split at h
    case isTrue hc =>
      cases h
      intro he
      simp only [] at he
      subst he
      exact absurd hc (by decide)
    case isFalse =>
      cases h

def simpleUrlModel : UrlModel where
  parse := simpleParse
  parse_href := simpleParse_href
  href_ne_empty := simpleParse_href_ne

def testHash (_ : String) : String := "0123456789abcdef"

theorem testHash_len (s : String) : (testHash s).length = 16 := rfl

def testHashModel : HashModel where
  hash := testHash
  hash_len := testHash_len

/-! ## Helper lemmas -/

theorem sanitizeUrl_some {M : UrlModel} {url u : String}
    (h : sanitizeUrl M url = some u) :
    ∃ p, M.parse url = some p ∧ p.href = u ∧
      (p.protocol = "http:" ∨ p.protocol = "https:") := by
  unfold sanitizeUrl at h
  cases hp : M.parse url with
  | none => rw [hp] at h; cases h
  | some p =>
    rw [hp] at h
    dsimp only at h
    split at h
    · cases h; exact ⟨p, rfl, rfl, by assumption⟩
    · cases h

theorem sanitizeUrl_ne_empty {M : UrlModel} {url u : String}
    (h : sanitizeUrl M url = some u) : u ≠ "" := by
  obtain ⟨p, hp, hhref, -⟩ := sanitizeUrl_some h
  exact hhref ▸ M.href_ne_empty url p hp

/-- The sanitized URL re-parses with the same (allowed) protocol: the
normalization stability of the platform parser. -/
theorem sanitizeUrl_reparse {M : UrlModel} {url u : String}
    (h : sanitizeUrl M url = some u) :
    ∃ p, M.parse u = some p ∧ (p.protocol = "http:" ∨ p.protocol = "https:") := by
  obtain ⟨p, hp, hhref, hproto⟩ := sanitizeUrl_some h
  exact ⟨p, hhref ▸ M.parse_href url p hp, hproto⟩

theorem length_asString (l : List Char) : (l.asString).length = l.length := rfl

theorem jsSliceTo_length_le (s : String) (n : Nat) : (jsSliceTo s n).length ≤ n := by
  unfold jsSliceTo
  rw [length_asString]
  exact List.length_take_le n s.toList

theorem sanitizeFlag_length_le (f : String) :
    (sanitizeFlag f).length ≤ MAX_FLAG_LENGTH :=
  jsSliceTo_length_le _ _

/-! ## Claim C8 — `createHistoryEntry` fails exactly on unsanitizable URLs -/

/-- C8: `createHistoryEntry` throws its `"Invalid URL"` validation error
exactly when the draft's URL cannot be sanitized to an allowed scheme
(`sanitizeUrl` returns `null`); whenever the URL sanitizes successfully,
no error is thrown and an entry is returned. -/
theorem createHistoryEntry_error_iff (M : UrlModel) (H : HashModel) (now : ℚ)
    (data : EntryDraft) :
    (createHistoryEntry M H now data = .error "Invalid URL" ↔
      sanitizeUrl M data.url = none) ∧
    (∀ u, sanitizeUrl M data.url = some u →
      ∃ e, createHistoryEntry M H now data = .ok e) := by
  unfold createHistoryEntry
  rw [show sanitizeUrl M data.url = sanitizeUrl M data.url from rfl]
  cases hs : sanitizeUrl M data.url with
  | none =>
    exact ⟨⟨fun _ => rfl, fun _ => rfl⟩, fun u hu => by cases hu⟩
  | some u =>
    have hne : u ≠ "" := sanitizeUrl_ne_empty hs
    dsimp only
    rw [if_neg hne]
    refine ⟨⟨fun h => ?_, fun h => ?_⟩, fun u' _ => ⟨_, rfl⟩⟩
    · cases h
    · cases h

/-- Witness for C8 at concrete inputs: an `ftp:` URL fails, an `https:`
URL succeeds. -/
theorem createHistoryEntry_error_iff_witness :
    (createHistoryEntry simpleUrlModel testHashModel 5
      { url := "ftp://x.com", matchScore := 82, label := "Strong Fit",
        decisionHelper := "Apply Immediately", greenFlags := [], redFlags := [] }
      = .error "Invalid URL") ∧
    (∃ e, createHistoryEntry simpleUrlModel testHashModel 5
      { url := "https://x.com/jobs/1", matchScore := 82, label := "Strong Fit",
        decisionHelper := "Apply Immediately", greenFlags := [], redFlags := [] }
      = .ok e) :=
  ⟨(createHistoryEntry_error_iff simpleUrlModel testHashModel 5
      { url := "ftp://x.com", matchScore := 82, label := "Strong Fit",
        decisionHelper := "Apply Immediately", greenFlags := [], redFlags := [] }).1.mpr rfl,
   (createHistoryEntry_error_iff simpleUrlModel testHashModel 5
      { url := "https://x.com/jobs/1", matchScore := 82, label := "Strong Fit",
        decisionHelper := "Apply Immediately", greenFlags := [], redFlags := [] }).2
     "https://x.com/jobs/1" rfl⟩

/-! ## Claim C10 — sentinel defaults for empty title/company -/

theorem trimChars_eq_nil {l : List Char}
    (h : ∀ c ∈ l, c.isWhitespace) : trimChars l = [] := by
  unfold trimChars
  rw [List.dropWhile_eq_nil_iff.mpr h]
  rfl

theorem sanitizeString_all_ws {t : String}
    (h : ∀ c ∈ t.toList, c.isWhitespace) : sanitizeString t = "" := by
  unfold sanitizeString
  rw [trimChars_eq_nil (fun c hc => h c (List.mem_of_mem_filter hc))]
  rfl

/-- C10: the sentinel defaults of `createHistoryEntry` apply to
present-but-empty `title`/`company` fields (the JavaScript `||` treats the
empty string as falsy) exactly as to absent ones, while a whitespace-only
title is truthy, sanitizes to the empty string, and is stored as the empty
string, bypassing the sentinel. -/
theorem createHistoryEntry_sentinels (M : UrlModel) (H : HashModel) (now : ℚ)
    (data : EntryDraft) (e : JobHistoryEntry)
    (h : createHistoryEntry M H now data = .ok e) :
    (data.title = some "" → e.title = "Untitled Job") ∧
    (data.company = some "" → e.company = "Unknown Company") ∧
    (data.title = none → e.title = "Untitled Job") ∧
    (data.company = none → e.company = "Unknown Company") ∧
    (∀ t, data.title = some t → t ≠ "" → (∀ c ∈ t.toList, c.isWhitespace) →
      e.title = "") := by
  unfold createHistoryEntry at h
  cases hs : sanitizeUrl M data.url with
  | none => rw [hs] at h; cases h
  | some u =>
    rw [hs] at h
    dsimp only at h
    rw [if_neg (sanitizeUrl_ne_empty hs)] at h
    cases h
    refine ⟨fun ht => ?_, fun hc => ?_, fun ht => ?_, fun hc => ?_,
      fun t ht hne hws => ?_⟩
    · show jsSliceTo (sanitizeString (jsOrDefault data.title "Untitled Job"))
        MAX_TITLE_LENGTH = "Untitled Job"
      rw [ht]; rfl
    · show jsSliceTo (sanitizeString (jsOrDefault data.company "Unknown Company"))
        MAX_COMPANY_LENGTH = "Unknown Company"
      rw [hc]; rfl
    · show jsSliceTo (sanitizeString (jsOrDefault data.title "Untitled Job"))
        MAX_TITLE_LENGTH = "Untitled Job"
      rw [ht]; rfl
    · show jsSliceTo (sanitizeString (jsOrDefault data.company "Unknown Company"))
        MAX_COMPANY_LENGTH = "Unknown Company"
      rw [hc]; rfl
    · show jsSliceTo (sanitizeString (jsOrDefault data.title "Untitled Job"))
        MAX_TITLE_LENGTH = ""
      rw [ht]
      unfold jsOrDefault
      dsimp only
      rw [if_neg hne, sanitizeString_all_ws hws]
      rfl

/-- Witness for C10: a draft with empty title, empty company and a valid
URL gets both sentinels; a whitespace-only title is stored as the empty
string. -/
theorem createHistoryEntry_sentinels_witness :
    (∀ e, createHistoryEntry simpleUrlModel testHashModel 5
      { url := "https://x.com/jobs/1", title := some "", company := some "",
        matchScore := 82, label := "Strong Fit",
        decisionHelper := "Apply Immediately", greenFlags := [], redFlags := [] }
      = .ok e → e.title = "Untitled Job" ∧ e.company = "Unknown Company") ∧
    (∀ e, createHistoryEntry simpleUrlModel testHashModel 5
      { url := "https://x.com/jobs/1", title := some "   ", company := none,
        matchScore := 82, label := "Strong Fit",
        decisionHelper := "Apply Immediately", greenFlags := [], redFlags := [] }
      = .ok e → e.title = "" ∧ e.company = "Unknown Company") := by
  constructor
  · intro e he
    have h := createHistoryEntry_sentinels simpleUrlModel testHashModel 5
      { url := "https://x.com/jobs/1", title := some "", company := some "",
        matchScore := 82, label := "Strong Fit",
        decisionHelper := "Apply Immediately", greenFlags := [], redFlags := [] } e he
    exact ⟨h.1 rfl, h.2.1 rfl⟩
  · intro e he
    have h := createHistoryEntry_sentinels simpleUrlModel testHashModel 5
      { url := "https://x.com/jobs/1", title := some "   ", company := none,
        matchScore := 82, label := "Strong Fit",
        decisionHelper := "Apply Immediately", greenFlags := [], redFlags := [] } e he
    exact ⟨h.2.2.2.2 "   " rfl (by decide) (by decide), h.2.2.2.1 rfl⟩

/-! ## Claim C5 — validation round-trip for well-formed drafts -/

theorem clamp_nonneg (x : ℚ) : 0 ≤ max 0 (min 100 x) := le_max_left 0 _

theorem clamp_le (x : ℚ) : max 0 (min 100 x) ≤ 100 :=
  max_le (by norm_num) (min_le_left 100 x)

/-- C5: for every well-formed draft (URL sanitizable to an allowed scheme,
label and decision helper drawn from their closed sets, creation time
non-negative), the entry `createHistoryEntry` returns passes
`validateHistoryEntry`: the id has length 16, the stored URL re-parses
with an allowed scheme, title/company respect their length caps, the score
is clamped into [0, 100], flag arrays have at most 3 strings of at most
150 characters, and `analyzedAt ≥ 0`. -/
theorem createHistoryEntry_validates (M : UrlModel) (H : HashModel) (now : ℚ)
    (data : EntryDraft) (e : JobHistoryEntry)
    (hnow : 0 ≤ now)
    (hlabel : data.label ∈ ["Strong Fit", "Medium Fit", "Weak Fit"])
    (hdh : data.decisionHelper ∈ ["Apply Immediately", "Tailor & Apply", "Skip for Now"])
    (h : createHistoryEntry M H now data = .ok e) :
    validEntry M e = true := by
  unfold createHistoryEntry at h
  cases hs : sanitizeUrl M data.url with
  | none => rw [hs] at h; cases h
  | some u =>
    rw [hs] at h
    dsimp only at h
    rw [if_neg (sanitizeUrl_ne_empty hs)] at h
    cases h
    obtain ⟨p, hp, hproto⟩ := sanitizeUrl_reparse hs
    unfold validEntry validateHistoryEntry JobHistoryEntry.toJS
    simp [JSValue.get, JSValue.falsy, JSValue.typeofJS, List.find?]
    refine ⟨H.hash_len u, jsSliceTo_length_le _ _, jsSliceTo_length_le _ _, ?_⟩
    rw [hp]
    simp only [Bool.and_eq_true, Bool.or_eq_true, decide_eq_true_eq,
      Bool.not_eq_true', decide_eq_false_iff_not, List.all_eq_true]
    refine ⟨hproto, by norm_num, not_lt.mpr hnow, by simpa using hlabel,
      by simpa using hdh,
      Nat.not_lt.mpr ((List.length_filter_le _ _).trans (List.length_take_le _ _)),
      Nat.not_lt.mpr ((List.length_filter_le _ _).trans (List.length_take_le _ _)),
      ?_, ?_⟩
    · intro x hx
      obtain ⟨f, hf, rfl⟩ := List.mem_map.1 hx
      obtain ⟨g, hg, rfl⟩ :=
        List.mem_map.1 (List.mem_of_mem_take (List.mem_of_mem_filter hf))
      simpa using sanitizeFlag_length_le g
    · intro x hx
      obtain ⟨f, hf, rfl⟩ := List.mem_map.1 hx
      obtain ⟨g, hg, rfl⟩ :=
        List.mem_map.1 (List.mem_of_mem_take (List.mem_of_mem_filter hf))
      simpa using sanitizeFlag_length_le g

/-- A concrete well-formed draft, for witnesses. -/
def sampleDraft : EntryDraft :=
  { url := "https://x.com/jobs/1"
    title := some "Engineer"
    company := some "Acme"
    matchScore := 82
    label := "Strong Fit"
    decisionHelper := "Apply Immediately"
    greenFlags := ["a", "b"]
    redFlags := ["c"] }

/-- The entry `createHistoryEntry` builds from `sampleDraft` at time 5
under the concrete platform models. -/
def sampleEntry : JobHistoryEntry :=
  { id := "0123456789abcdef"
    url := "https://x.com/jobs/1"
    title := "Engineer"
    company := "Acme"
    matchScore := 82
    label := "Strong Fit"
    decisionHelper := "Apply Immediately"
    topGreenFlags := ["a", "b"]
    topRedFlags := ["c"]
    analyzedAt := 5
    appliedAt := none }

/-- Witness for C5: the concrete created entry passes the validator. -/
theorem createHistoryEntry_validates_witness :
    validEntry simpleUrlModel sampleEntry = true :=
  createHistoryEntry_validates simpleUrlModel testHashModel 5 sampleDraft
    sampleEntry (by norm_num) (by decide) (by decide) rfl

/-! ## Claim C6 — `markJobAsApplied` is a frame-preserving point update -/

/-- C6: `markJobAsApplied` updates, in place, exactly the entries whose
`id` equals the hash of the given URL, replacing only `appliedAt` (by the
current time) and no other field; every other entry and every position are
unchanged, the length is preserved, and when no entry carries that id the
returned collection is the input collection itself. -/
theorem markJobAsApplied_frame (H : HashModel) (now : ℚ)
    (history : List JobHistoryEntry) (url : String) :
    (markJobAsApplied H now history url).length = history.length ∧
    (∀ (i : Nat) (e : JobHistoryEntry), history[i]? = some e →
      e.id = H.hash url →
      (markJobAsApplied H now history url)[i]? =
        some { e with appliedAt := some now }) ∧
    (∀ (i : Nat) (e : JobHistoryEntry), history[i]? = some e →
      e.id ≠ H.hash url →
      (markJobAsApplied H now history url)[i]? = some e) ∧
    ((∀ e ∈ history, e.id ≠ H.hash url) →
      markJobAsApplied H now history url = history) := by
  refine ⟨List.length_map _ _, ?_, ?_, ?_⟩
  · intro i e hi hid
    unfold markJobAsApplied
    rw [List.getElem?_map, hi]
    simp [if_pos hid]
  · intro i e hi hid
    unfold markJobAsApplied
    rw [List.getElem?_map, hi]
    simp [if_neg hid]
  · intro hnone
    unfold markJobAsApplied
    conv_rhs => rw [← List.map_id history]
    exact List.map_congr_left (fun e he => by rw [if_neg (hnone e he)]; rfl)

/-- Witness for C6: marking the sample entry's URL updates only its
`appliedAt`; a URL hashing to an id absent from the collection leaves the
collection unchanged. -/
theorem markJobAsApplied_frame_witness :
    (markJobAsApplied testHashModel 7 [sampleEntry] "https://x.com/jobs/1")[0]? =
      some { sampleEntry with appliedAt := some 7 } ∧
    markJobAsApplied testHashModel 7
      [{ sampleEntry with id := "ffffffffffffffff" }] "https://x.com/jobs/1" =
      [{ sampleEntry with id := "ffffffffffffffff" }] :=
  ⟨(markJobAsApplied_frame testHashModel 7 [sampleEntry] "https://x.com/jobs/1").2.1
      0 sampleEntry rfl rfl,
   (markJobAsApplied_frame testHashModel 7
      [{ sampleEntry with id := "ffffffffffffffff" }] "https://x.com/jobs/1").2.2.2
      (by decide)⟩

/-! ## Claim C9 — `sortByScore` sorts descending, stably, without mutation -/

/-- Non-increasing `matchScore` order. -/
def ScoreSorted (l : List JobHistoryEntry) : Prop :=
  l.Pairwise (fun a b => b.matchScore ≤ a.matchScore)

theorem insertByScore_perm (e : JobHistoryEntry) (l : List JobHistoryEntry) :
    List.Perm (insertByScore e l) (e :: l) := by
  induction l with
  | nil => exact List.Perm.refl _
  | cons x xs ih =>
    unfold insertByScore
    split
    · exact ((ih.cons x).trans (List.Perm.swap e x xs))
    · exact List.Perm.refl _

theorem sortByScore_foldl_perm (l acc : List JobHistoryEntry) :
    List.Perm (l.foldl (fun a e => insertByScore e a) acc) (acc ++ l) := by
  induction l generalizing acc with
  | nil => simp
  | cons e rest ih =>
    refine ((ih (insertByScore e acc)).trans ?_)
    refine ((insertByScore_perm e acc).append_right rest).trans ?_
    exact (List.perm_middle).symm

theorem insertByScore_sorted {l : List JobHistoryEntry}
    (h : ScoreSorted l) (e : JobHistoryEntry) : ScoreSorted (insertByScore e l) := by
  induction l with
  | nil => exact List.pairwise_singleton _ e
  | cons x xs ih =>
    obtain ⟨hx, hxs⟩ := List.pairwise_cons.1 h
    unfold insertByScore
    split
    case isTrue hge =>
      refine List.pairwise_cons.2 ⟨?_, ih hxs⟩
      intro y hy
      rcases List.mem_cons.1 ((insertByScore_perm e xs).mem_iff.1 hy) with hy | hy
      · exact hy ▸ hge
      · exact hx y hy
    case isFalse hlt =>
      refine List.pairwise_cons.2 ⟨?_, h⟩
      intro y hy
      rcases List.mem_cons.1 hy with hy | hy
      · exact hy ▸ le_of_lt (lt_of_not_le hlt)
      · exact le_trans (hx y hy) (le_of_lt (lt_of_not_le hlt))

theorem sortByScore_foldl_sorted (l : List JobHistoryEntry)
    {acc : List JobHistoryEntry} (h : ScoreSorted acc) :
    ScoreSorted (l.foldl (fun a e => insertByScore e a) acc) := by
  induction l generalizing acc with
  | nil => exact h
  | cons e rest ih => exact ih (insertByScore_sorted h e)

theorem insertByScore_filter {l : List JobHistoryEntry}
    (h : ScoreSorted l) (e : JobHistoryEntry) (q : ℚ) :
    (insertByScore e l).filter (fun x => decide (x.matchScore = q)) =
      l.filter (fun x => decide (x.matchScore = q)) ++
        (if e.matchScore = q then [e] else []) := by
  induction l with
  | nil =>
    unfold insertByScore
    by_cases he : e.matchScore = q
    · rw [if_pos he]
      simp [List.filter, he]
    · rw [if_neg he]
      simp [List.filter, he]
  | cons x xs ih =>
    obtain ⟨hx, hxs⟩ := List.pairwise_cons.1 h
    unfold insertByScore
    split
    case isTrue hge =>
      rw [List.filter_cons, List.filter_cons]
      split
      · rw [ih hxs]; rfl
      · exact ih hxs
    case isFalse hlt =>
      have hgt : x.matchScore < e.matchScore := lt_of_not_le hlt
      by_cases he : e.matchScore = q
      · have hnone : (x :: xs).filter (fun x => decide (x.matchScore = q)) = [] := by
          rw [List.filter_eq_nil_iff]
          intro y hy
          have hyx : y.matchScore ≤ x.matchScore := by
            rcases List.mem_cons.1 hy with hy | hy
            · exact hy ▸ le_refl _
            · exact hx y hy
          simp only [decide_eq_true_eq]
          intro hyq
          rw [hyq] at hyx
          rw [he] at hgt
          exact absurd hyx (not_le.mpr hgt)
        rw [List.filter_cons_of_pos (by simpa using he), hnone, if_pos he]
        rfl
      · rw [List.filter_cons_of_neg (by simpa using he), if_neg he, List.append_nil]

theorem sortByScore_foldl_filter (l : List JobHistoryEntry)
    {acc : List JobHistoryEntry} (h : ScoreSorted acc) (q : ℚ) :
    (l.foldl (fun a e => insertByScore e a) acc).filter
        (fun x => decide (x.matchScore = q)) =
      acc.filter (fun x => decide (x.matchScore = q)) ++
        l.filter (fun x => decide (x.matchScore = q)) := by
  induction l generalizing acc with
  | nil => simp
  | cons e rest ih =>
    rw [List.foldl_cons, ih (insertByScore_sorted h e), insertByScore_filter h]
    by_cases hq : e.matchScore = q
    · rw [if_pos hq, List.filter_cons_of_pos (by simpa using hq), List.append_assoc]
      rfl
    · rw [if_neg hq, List.filter_cons_of_neg (by simpa using hq), List.append_nil]

/-- C9: `sortByScore` returns the entries in non-increasing `matchScore`
order; the sort is stable — filtering the output by any fixed score yields
exactly the input filtered by that score, so equal-score entries keep
their relative insertion order; and the output is a permutation of the
input.  The source copies the array (`[...history]`) before sorting, and
the pure embedding has no mutation to observe. -/
theorem sortByScore_spec (history : List JobHistoryEntry) :
    ScoreSorted (sortByScore history) ∧
    List.Perm (sortByScore history) history ∧
    (∀ q : ℚ, (sortByScore history).filter (fun x => decide (x.matchScore = q)) =
      history.filter (fun x => decide (x.matchScore = q))) := by
  refine ⟨sortByScore_foldl_sorted history List.Pairwise.nil, ?_, ?_⟩
  · simpa using sortByScore_foldl_perm history []
  · intro q
    simpa using sortByScore_foldl_filter history List.Pairwise.nil q

/-! ## Claim C3 — dedup by id, no length growth, idempotence -/

/-- C3: `addToHistory` deduplicates by `id` and is idempotent: the new
entry is always at the head; no other element of the result carries its
`id` (any existing copy is removed); when the collection already contains
an entry with the same `id`, the length does not increase; and adding the
same entry twice in a row equals adding it once. -/
theorem addToHistory_dedup_idem (M : UrlModel) (h : List JobHistoryEntry)
    (e : JobHistoryEntry) :
    (addToHistory M h e).head? = some e ∧
    (∀ x ∈ (addToHistory M h e).tail, x.id ≠ e.id) ∧
    ((∃ x ∈ h, x.id = e.id) → (addToHistory M h e).length ≤ h.length) ∧
    addToHistory M (addToHistory M h e) e = addToHistory M h e := by
  unfold addToHistory
  have htake : (e :: h.filter (fun x => validEntry M x ∧ x.id ≠ e.id)).take
      MAX_HISTORY_ITEMS =
      e :: (h.filter (fun x => validEntry M x ∧ x.id ≠ e.id)).take 19 :=
    List.take_succ_cons
  refine ⟨?_, ?_, ?_, ?_⟩
  · rw [htake]; rfl
  · rw [htake]
    intro x hx
    have hxf := List.mem_of_mem_take hx
    have := (List.mem_filter.1 hxf).2
    simp only [decide_eq_true_eq] at this
    exact this.2
  · rintro ⟨x, hxh, hxid⟩
    have hlt : (h.filter (fun x => validEntry M x ∧ x.id ≠ e.id)).length < h.length := by
      apply List.length_filter_lt_length_iff_exists.2
      exact ⟨x, hxh, by simp [hxid]⟩
    calc ((e :: h.filter (fun x => validEntry M x ∧ x.id ≠ e.id)).take
          MAX_HISTORY_ITEMS).length
        ≤ (e :: h.filter (fun x => validEntry M x ∧ x.id ≠ e.id)).length := by
          rw [List.length_take]; exact min_le_right _ _
      _ = (h.filter (fun x => validEntry M x ∧ x.id ≠ e.id)).length + 1 := by
          simp
      _ ≤ h.length := hlt
  · rw [htake]
    have hfil : (e :: (h.filter (fun x => validEntry M x ∧ x.id ≠ e.id)).take 19).filter
        (fun x => validEntry M x ∧ x.id ≠ e.id) =
        (h.filter (fun x => validEntry M x ∧ x.id ≠ e.id)).take 19 := by
      rw [List.filter_cons_of_neg (by simp)]
      apply List.filter_eq_self.2
      intro a ha
      exact (List.mem_filter.1 (List.mem_of_mem_take ha)).2
    rw [hfil]
    show (e :: (h.filter (fun x => validEntry M x ∧ x.id ≠ e.id)).take 19).take 20 = _
    rw [List.take_succ_cons, List.take_take]
    simp

/-- Witness for C3 at concrete inputs: re-adding an entry with the id
already present does not grow the collection, and the repeated identical
insert is a no-op. -/
theorem addToHistory_dedup_idem_witness :
    (addToHistory simpleUrlModel [sampleEntry]
      { sampleEntry with title := "Other" }).length ≤ 1 ∧
    addToHistory simpleUrlModel
        (addToHistory simpleUrlModel [sampleEntry]
          { sampleEntry with title := "Other" })
        { sampleEntry with title := "Other" } =
      addToHistory simpleUrlModel [sampleEntry]
        { sampleEntry with title := "Other" } :=
  ⟨(addToHistory_dedup_idem simpleUrlModel [sampleEntry]
      { sampleEntry with title := "Other" }).2.2.1
      ⟨sampleEntry, by simp, rfl⟩,
   (addToHistory_dedup_idem simpleUrlModel [sampleEntry]
      { sampleEntry with title := "Other" }).2.2.2⟩

/-! ## Claim C2 — capacity bound and retention of the most recent entries -/

/-- Sequential addition of a batch of freshly analyzed entries, oldest
first (each via `addToHistory`). -/
def addAllToHistory (M : UrlModel) (h : List JobHistoryEntry)
    (es : List JobHistoryEntry) : List JobHistoryEntry :=
  es.foldl (addToHistory M) h

theorem addToHistory_take_succ (M : UrlModel) (h : List JobHistoryEntry)
    (e : JobHistoryEntry) (k : Nat)
    (hk : ∀ x ∈ h.take k, validEntry M x = true ∧ x.id ≠ e.id)
    (hle : k + 1 ≤ MAX_HISTORY_ITEMS) :
    (addToHistory M h e).take (k + 1) = e :: h.take k := by
  unfold addToHistory
  have hfil : h.filter (fun x => validEntry M x ∧ x.id ≠ e.id) =
      h.take k ++ (h.drop k).filter (fun x => validEntry M x ∧ x.id ≠ e.id) := by
    conv_lhs => rw [← List.take_append_drop k h]
    rw [List.filter_append]
    congr 1
    apply List.filter_eq_self.2
    intro a ha
    have := hk a ha
    simp [this.1, this.2]
  rw [hfil, List.take_take, min_eq_left hle, List.take_succ_cons,
    List.take_append_eq_append_take, List.take_take, min_self]
  have hnil : ((h.drop k).filter
      (fun x => validEntry M x ∧ x.id ≠ e.id)).take (k - (h.take k).length) = [] := by
    by_cases hlen : h.length ≤ k
    · rw [List.drop_eq_nil_of_le hlen]
      simp
    · have : (h.take k).length = k := by
        rw [List.length_take]
        exact min_eq_left (le_of_not_le hlen)
      rw [this, Nat.sub_self]
      rfl
  rw [hnil, List.append_nil]

theorem addAll_take_eq (M : UrlModel) (es : List JobHistoryEntry) :
    ∀ (h : List JobHistoryEntry) (k : Nat),
    (∀ e ∈ es, validEntry M e = true) →
    es.Pairwise (fun a b => a.id ≠ b.id) →
    (∀ x ∈ h.take k, validEntry M x = true ∧ ∀ e ∈ es, x.id ≠ e.id) →
    es.length + k ≤ MAX_HISTORY_ITEMS →
    (addAllToHistory M h es).take (es.length + k) = es.reverse ++ h.take k := by
  induction es with
  | nil =>
    intro h k _ _ _ _
    simp [addAllToHistory]
  | cons e rest ih =>
    intro h k hval hdist hk hle
    obtain ⟨hd, ht⟩ := List.pairwise_cons.1 hdist
    have hle1 : k + 1 ≤ MAX_HISTORY_ITEMS := by
      refine le_trans ?_ hle
      simp
      omega
    have hstep : (addToHistory M h e).take (k + 1) = e :: h.take k :=
      addToHistory_take_succ M h e k
        (fun x hx => ⟨(hk x hx).1, (hk x hx).2 e (List.mem_cons_self e rest)⟩)
        hle1
    have harg3 : ∀ x ∈ (addToHistory M h e).take (k + 1),
        validEntry M x = true ∧ ∀ e' ∈ rest, x.id ≠ e'.id := by
      rw [hstep]
      intro x hx
      rcases List.mem_cons.1 hx with hx | hx
      · subst hx
        exact ⟨hval x (List.mem_cons_self x rest), fun e' he' => hd e' he'⟩
      · exact ⟨(hk x hx).1,
          fun e' he' => (hk x hx).2 e' (List.mem_cons_of_mem e he')⟩
    have hlen2 : rest.length + (k + 1) ≤ MAX_HISTORY_ITEMS := by
      refine le_trans (le_of_eq ?_) hle
      simp
      omega
    have hih := ih (addToHistory M h e) (k + 1)
      (fun e' he' => hval e' (List.mem_cons_of_mem e he')) ht harg3 hlen2
    show (addAllToHistory M (addToHistory M h e) rest).take
      ((e :: rest).length + k) = _
    rw [show (e :: rest).length + k = rest.length + (k + 1) by simp; omega]
    rw [hih, hstep]
    simp

theorem addToHistory_length_le (M : UrlModel) (h : List JobHistoryEntry)
    (e : JobHistoryEntry) :
    (addToHistory M h e).length ≤ MAX_HISTORY_ITEMS := by
  unfold addToHistory
  rw [List.length_take]
  exact min_le_left _ _

theorem addAll_length_le (M : UrlModel) (es : List JobHistoryEntry) :
    ∀ h : List JobHistoryEntry, es ≠ [] →
    (addAllToHistory M h es).length ≤ MAX_HISTORY_ITEMS := by
  induction es with
  | nil => intro h hne; exact absurd rfl hne
  | cons e rest ih =>
    intro h _
    show (addAllToHistory M (addToHistory M h e) rest).length ≤ _
    cases rest with
    | nil => exact addToHistory_length_le M h e
    | cons r rs => exact ih (addToHistory M h e) (List.cons_ne_nil r rs)

/-- C2: every collection `addToHistory` returns has length at most 20
(`MAX_HISTORY_ITEMS`); and after more than 20 sequential adds of distinct
valid entries, the collection holds exactly the 20 most recently added
entries, most recent first (so the newest entry is at the head),
independently of the starting collection. -/
theorem addToHistory_capacity (M : UrlModel) (h es : List JobHistoryEntry)
    (hval : ∀ e ∈ es, validEntry M e = true)
    (hdist : es.Pairwise (fun a b => a.id ≠ b.id))
    (hlen : MAX_HISTORY_ITEMS < es.length) :
    (∀ (h' : List JobHistoryEntry) (e' : JobHistoryEntry),
      (addToHistory M h' e').length ≤ MAX_HISTORY_ITEMS) ∧
    (addAllToHistory M h es).length = MAX_HISTORY_ITEMS ∧
    addAllToHistory M h es = es.reverse.take MAX_HISTORY_ITEMS := by
  refine ⟨fun h' e' => addToHistory_length_le M h' e', ?_⟩
  set n := es.length - MAX_HISTORY_ITEMS with hn
  set es2 := es.drop n with hes2
  have hl2 : es2.length = MAX_HISTORY_ITEMS := by
    rw [hes2, List.length_drop, hn]
    exact Nat.sub_sub_self (le_of_lt hlen)
  have hsplit : addAllToHistory M h es =
      addAllToHistory M (addAllToHistory M h (es.take n)) es2 := by
    unfold addAllToHistory
    conv_lhs => rw [← List.take_append_drop n es]
    rw [List.foldl_append]
  have hval2 : ∀ e ∈ es2, validEntry M e = true :=
    fun e he => hval e (List.drop_subset n es he)
  have hdist2 : es2.Pairwise (fun a b => a.id ≠ b.id) :=
    hdist.sublist (List.drop_sublist n es)
  have htake := addAll_take_eq M es2 (addAllToHistory M h (es.take n)) 0
    hval2 hdist2 (by simp) (by rw [hl2]; simp)
  rw [Nat.add_zero, hl2] at htake
  simp only [List.take_zero, List.append_nil] at htake
  have hne2 : es2 ≠ [] := by
    intro hcon
    rw [hcon] at hl2
    exact absurd hl2.symm (by decide)
  have hlength : (addAllToHistory M (addAllToHistory M h (es.take n)) es2).length =
      MAX_HISTORY_ITEMS := by
    have hub := addAll_length_le M es2 (addAllToHistory M h (es.take n)) hne2
    have hlb : MAX_HISTORY_ITEMS ≤
        (addAllToHistory M (addAllToHistory M h (es.take n)) es2).length := by
      have := congrArg List.length htake
      rw [List.length_take, List.length_reverse, hl2] at this
      omega
    omega
  have hfull : addAllToHistory M (addAllToHistory M h (es.take n)) es2 =
      es2.reverse := by
    rw [← htake]
    rw [← hlength]
    exact (List.take_length _).symm
  have htail : es.reverse.take MAX_HISTORY_ITEMS = es2.reverse := by
    conv_lhs => rw [← List.take_append_drop n es]
    rw [List.reverse_append]
    rw [show MAX_HISTORY_ITEMS = es2.reverse.length by rw [List.length_reverse, hl2]]
    exact List.take_left _ _
  rw [hsplit, hlength, hfull, htail]
  exact ⟨rfl, rfl⟩

/-- Twenty-one distinct valid entries, for the C2 witness. -/
def manyEntries : List JobHistoryEntry :=
  (List.range 21).map
    (fun i => { sampleEntry with id := "aaaaaaaaaaaaaaa".push (Char.ofNat (65 + i)) })

/-- Witness for C2: adding 21 distinct valid entries to the empty
collection retains exactly the 20 most recent, newest first. -/
theorem addToHistory_capacity_witness :
    (addAllToHistory simpleUrlModel [] manyEntries).length = MAX_HISTORY_ITEMS ∧
    addAllToHistory simpleUrlModel [] manyEntries =
      manyEntries.reverse.take MAX_HISTORY_ITEMS :=
  ⟨(addToHistory_capacity simpleUrlModel [] manyEntries (by decide) (by decide)
      (by decide)).2.1,
   (addToHistory_capacity simpleUrlModel [] manyEntries (by decide) (by decide)
      (by decide)).2.2⟩

/-! ## Claim C1 — the injected control's applied state (code bug)

`injectButton` in `src/content/applicationTracker.ts` computes
`isApplied` as `history.some((job) => job.url === url)` — membership of
the page URL in the analysis history — although its own comment reads
"Check if already applied", the library exports `isJobApplied` (hash
lookup plus `appliedAt`) for exactly this purpose, and the earlier
tracker version in this repository calls it there.  An entry that was
analyzed but never marked applied therefore renders the control as
"Applied" with no click handler, making it impossible to mark the job. -/

/-- C1 (failing input): `sampleEntry` has `appliedAt` unset, so the
claim's specified lookup (`isJobApplied`) answers `false`; yet
`injectButton` renders the control as "Applied" and attaches no click
activation handler, because the entry's URL is present in the history. -/
theorem injectButton_ignores_appliedAt :
    sampleEntry.appliedAt = none ∧
    isJobApplied testHashModel [sampleEntry] "https://x.com/jobs/1" = false ∧
    injectButtonControl [sampleEntry] "https://x.com/jobs/1" =
      { label := "Applied", hasClickHandler := false } :=
  ⟨rfl, rfl, rfl⟩

/-! ## Claim C4 — wholesale discard on load, but history entries unchecked -/

/-- A blob `validateStoredData` accepts although its `jobHistory` holds a
value no entry validator accepts. -/
def corruptBlob : JSValue :=
  .obj [("assessment", .null), ("coverLetter", .null), ("analyzedUrl", .null),
    ("analyzedAt", .null), ("jobHistory", .arr [.num 42])]

/-- C4 counterexample: `getStoredData` accepts `corruptBlob` and returns
it unrepaired, yet the blob's `jobHistory` element `42` fails
`validateHistoryEntry` — so an accepted blob's persisted history entries
need not satisfy the entry validator. -/
theorem getStoredData_counterexample :
    validateStoredData simpleUrlModel corruptBlob = true ∧
    getStoredData simpleUrlModel corruptBlob = corruptBlob ∧
    corruptBlob.get "jobHistory" = .arr [.num 42] ∧
    validateHistoryEntry simpleUrlModel (.num 42) = false :=
  ⟨rfl, rfl, rfl, rfl⟩

/-- C4 (amended): a blob rejected by `validateStoredData` is discarded
wholesale on load — `getStoredData` returns the fail-safe empty default,
never a partial repair — and an accepted blob is returned exactly as
stored; but `validateStoredData` never inspects `jobHistory`, so per-entry
validation happens only when the history is next modified:
`addToHistory` drops every stored element that fails the entry
validator. -/
theorem getStoredData_wholesale_reset (M : UrlModel) :
    (∀ data : JSValue, validateStoredData M data = false →
      getStoredData M data = defaultStoredData) ∧
    (∀ data : JSValue, getStoredData M data = defaultStoredData ∨
      (getStoredData M data = data ∧ validateStoredData M data = true)) ∧
    (∀ (h : List JobHistoryEntry) (e : JobHistoryEntry),
      ∀ x ∈ addToHistory M h e, x = e ∨ validEntry M x = true) := by
  refine ⟨?_, ?_, ?_⟩
  · intro data hv
    unfold getStoredData
    split
    · rfl
    · simp [hv]
  · intro data
    unfold getStoredData
    split
    · exact Or.inl rfl
    · split
      case isTrue hval => exact Or.inr ⟨rfl, hval⟩
      case isFalse => exact Or.inl rfl
  · intro h e x hx
    unfold addToHistory at hx
    rcases List.mem_cons.1 (List.mem_of_mem_take hx) with hx | hx
    · exact Or.inl hx
    · have := (List.mem_filter.1 hx).2
      simp only [decide_eq_true_eq] at this
      exact Or.inr this.1

/-- Witness for C4's amended theorem: a non-object blob is reset to the
default, and adding to a history containing an invalid element keeps only
the new entry and validated elements. -/
theorem getStoredData_wholesale_reset_witness :
    getStoredData simpleUrlModel (.num 3) = defaultStoredData ∧
    (∀ x ∈ addToHistory simpleUrlModel [{ sampleEntry with id := "short" }]
      sampleEntry, x = sampleEntry ∨ validEntry simpleUrlModel x = true) :=
  ⟨(getStoredData_wholesale_reset simpleUrlModel).1 (.num 3) rfl,
   (getStoredData_wholesale_reset simpleUrlModel).2.2
     [{ sampleEntry with id := "short" }] sampleEntry⟩

/-! ## Claim C7 — throw behaviour on malformed stored collections -/

theorem validateHistoryEntry_isObj {M : UrlModel} {v : JSValue}
    (h : validateHistoryEntry M v = true) : ∃ f, v = .obj f := by
  cases v
  case obj f => exact ⟨f, rfl⟩
  all_goals
    simp [validateHistoryEntry, JSValue.falsy, JSValue.typeofJS, JSValue.get] at h

theorem filterByLabelJS_ok (labels : List String) :
    ∀ history : List JSValue, (∀ v ∈ history, ∃ f, v = .obj f) →
    ∃ r, filterByLabelJS history labels = .ok r := by
  intro history
  induction history with
  | nil => exact fun _ => ⟨[], rfl⟩
  | cons e rest ih =>
    intro h
    obtain ⟨f, rfl⟩ := h e (List.mem_cons_self e rest)
    obtain ⟨r, hr⟩ := ih (fun v hv => h v (List.mem_cons_of_mem _ hv))
    unfold filterByLabelJS
    rw [hr]
    exact ⟨_, rfl⟩

theorem filterByTimeRangeJS_ok (now days : ℚ) :
    ∀ history : List JSValue, (∀ v ∈ history, ∃ f, v = .obj f) →
    ∃ r, filterByTimeRangeJS now history days = .ok r := by
  intro history
  induction history with
  | nil => exact fun _ => ⟨[], rfl⟩
  | cons e rest ih =>
    intro h
    obtain ⟨f, rfl⟩ := h e (List.mem_cons_self e rest)
    obtain ⟨r, hr⟩ := ih (fun v hv => h v (List.mem_cons_of_mem _ hv))
    unfold filterByTimeRangeJS
    rw [hr]
    exact ⟨_, rfl⟩

theorem scoresSum_ok :
    ∀ history : List JSValue, (∀ v ∈ history, ∃ f, v = .obj f) →
    ∃ r, scoresSum history = .ok r := by
  intro history
  induction history with
  | nil => exact fun _ => ⟨some 0, rfl⟩
  | cons e rest ih =>
    intro h
    obtain ⟨f, rfl⟩ := h e (List.mem_cons_self e rest)
    obtain ⟨r, hr⟩ := ih (fun v hv => h v (List.mem_cons_of_mem _ hv))
    unfold scoresSum
    rw [hr]
    exact ⟨_, rfl⟩

theorem markJobAsAppliedJS_ok (H : HashModel) (now : ℚ) (url : String) :
    ∀ history : List JSValue, (∀ v ∈ history, ∃ f, v = .obj f) →
    ∃ r, markJobAsAppliedJS H now url history = .ok r := by
  intro history
  induction history with
  | nil => exact fun _ => ⟨[], rfl⟩
  | cons e rest ih =>
    intro h
    obtain ⟨f, rfl⟩ := h e (List.mem_cons_self e rest)
    obtain ⟨r, hr⟩ := ih (fun v hv => h v (List.mem_cons_of_mem _ hv))
    unfold markJobAsAppliedJS
    rw [hr]
    exact ⟨_, rfl⟩

theorem insertByScoreJS_ok {e : JSValue} (hf : ∃ f, e = .obj f) :
    ∀ acc : List JSValue, (∀ v ∈ acc, ∃ f, v = .obj f) →
    ∃ r, insertByScoreJS e acc = .ok r ∧ ∀ v ∈ r, ∃ f, v = .obj f := by
  intro acc
  induction acc with
  | nil =>
    intro _
    refine ⟨[e], rfl, ?_⟩
    intro v hv
    rw [List.mem_singleton.1 hv]
    exact hf
  | cons x xs ih =>
    intro h
    obtain ⟨fx, hfx⟩ := h x (List.mem_cons_self x xs)
    obtain ⟨fe, hfe⟩ := hf
    have hcomp : scoreComparator x e =
        .ok (match (JSValue.obj fe).get "matchScore",
              (JSValue.obj fx).get "matchScore" with
             | .num qb, .num qa => qb - qa
             | _, _ => 0) := by
      rw [hfx, hfe]
      rfl
    obtain ⟨r, hr, hrmem⟩ := ih (fun v hv => h v (List.mem_cons_of_mem _ hv))
    by_cases hc : (match (JSValue.obj fe).get "matchScore",
        (JSValue.obj fx).get "matchScore" with
        | .num qb, .num qa => qb - qa
        | _, _ => 0) ≤ 0
    · have heq : insertByScoreJS e (x :: xs) = .ok (x :: r) := by
        unfold insertByScoreJS
        rw [hcomp]
        dsimp only
        rw [if_pos hc, hr]
      refine ⟨x :: r, heq, ?_⟩
      intro v hv
      rcases List.mem_cons.1 hv with hv | hv
      · exact hv ▸ ⟨fx, hfx⟩
      · exact hrmem v hv
    · have heq : insertByScoreJS e (x :: xs) = .ok (e :: x :: xs) := by
        unfold insertByScoreJS
        rw [hcomp]
        dsimp only
        rw [if_neg hc]
      refine ⟨e :: x :: xs, heq, ?_⟩
      intro v hv
      rcases List.mem_cons.1 hv with hv | hv
      · exact hv ▸ ⟨fe, hfe⟩
      · exact h v hv

theorem sortInsertAllJS_ok :
    ∀ (es acc : List JSValue), (∀ v ∈ es, ∃ f, v = .obj f) →
    (∀ v ∈ acc, ∃ f, v = .obj f) →
    ∃ r, sortInsertAllJS acc es = .ok r := by
  intro es
  induction es with
  | nil => exact fun acc _ _ => ⟨acc, rfl⟩
  | cons e rest ih =>
    intro acc hes hacc
    obtain ⟨r, hr, hrmem⟩ :=
      insertByScoreJS_ok (hes e (List.mem_cons_self e rest)) acc hacc
    obtain ⟨r2, hr2⟩ := ih r (fun v hv => hes v (List.mem_cons_of_mem _ hv)) hrmem
    refine ⟨r2, ?_⟩
    unfold sortInsertAllJS
    rw [hr]
    exact hr2

theorem sortByScoreJS_ok (history : List JSValue)
    (h : ∀ v ∈ history, ∃ f, v = .obj f) :
    ∃ r, sortByScoreJS history = .ok r := by
  obtain ⟨r, hr⟩ := sortInsertAllJS_ok
    (history.filter (fun v => match v with | .undefined => false | _ => true)) []
    (fun v hv => h v (List.mem_of_mem_filter hv)) (by intro v hv; cases hv)
  unfold sortByScoreJS
  rw [hr]
  exact ⟨_, rfl⟩

theorem getHistoryStatsJS_ok (history : List JSValue)
    (h : ∀ v ∈ history, ∃ f, v = .obj f) :
    ∃ r, getHistoryStatsJS history = .ok r := by
  obtain ⟨r1, hr1⟩ := filterByLabelJS_ok ["Strong Fit"] history h
  obtain ⟨r2, hr2⟩ := filterByLabelJS_ok ["Medium Fit"] history h
  obtain ⟨r3, hr3⟩ := filterByLabelJS_ok ["Weak Fit"] history h
  obtain ⟨r4, hr4⟩ := scoresSum_ok history h
  unfold getHistoryStatsJS
  rw [hr1, hr2, hr3, hr4]
  exact ⟨_, rfl⟩

/-- C7 counterexample: a malformed stored collection containing `null`
makes `filterByLabel` throw a `TypeError` (property read `entry.label` on
`null`), so the operations do not complete without error on arbitrary
element values. -/
theorem filterByLabelJS_throws_on_null :
    filterByLabelJS [JSValue.null] ["Strong Fit"] = .error "TypeError" := rfl

/-- C7 (amended): the History Store query operations can throw on a
malformed stored collection (see the `null` counterexample), and callers
pass the loaded collection in unvalidated; but on a collection whose every
element passes `validateHistoryEntry`, `filterByLabel`,
`filterByTimeRange`, `sortByScore`, `getHistoryStats` and
`markJobAsApplied` all complete without raising an error.  Per-element
validation with dropping happens only inside `addToHistory`. -/
theorem historyOps_throw_behaviour (M : UrlModel) (H : HashModel)
    (now days : ℚ) (labels : List String) (url : String)
    (history : List JSValue)
    (hval : ∀ v ∈ history, validateHistoryEntry M v = true) :
    (∃ r, filterByLabelJS history labels = .ok r) ∧
    (∃ r, filterByTimeRangeJS now history days = .ok r) ∧
    (∃ r, sortByScoreJS history = .ok r) ∧
    (∃ r, getHistoryStatsJS history = .ok r) ∧
    (∃ r, markJobAsAppliedJS H now url history = .ok r) := by
  have hobj : ∀ v ∈ history, ∃ f, v = .obj f :=
    fun v hv => validateHistoryEntry_isObj (hval v hv)
  exact ⟨filterByLabelJS_ok labels history hobj,
    filterByTimeRangeJS_ok now days history hobj,
    sortByScoreJS_ok history hobj,
    getHistoryStatsJS_ok history hobj,
    markJobAsAppliedJS_ok H now url history hobj⟩

/-- Witness for C7's amended theorem: on the singleton collection holding
the (validated) sample entry, all five operations succeed. -/
theorem historyOps_throw_behaviour_witness :
    (∃ r, filterByLabelJS [sampleEntry.toJS] ["Strong Fit"] = .ok r) ∧
    (∃ r, filterByTimeRangeJS 5 [sampleEntry.toJS] 7 = .ok r) ∧
    (∃ r, sortByScoreJS [sampleEntry.toJS] = .ok r) ∧
    (∃ r, getHistoryStatsJS [sampleEntry.toJS] = .ok r) ∧
    (∃ r, markJobAsAppliedJS testHashModel 5 "https://x.com/jobs/1"
      [sampleEntry.toJS] = .ok r) :=
  historyOps_throw_behaviour simpleUrlModel testHashModel 5 7 ["Strong Fit"]
    "https://x.com/jobs/1" [sampleEntry.toJS]
    (by intro v hv; rw [List.mem_singleton.1 hv]; rfl)
